import Mathlib

/-!
Verification of the dashcam recording supervisor and marker store.

Shallow embedding of the Go sources:
  * `src/internal/attributes/fileattributes.go` (marker store over Linux
    extended attributes),
  * `src/main.go` (recording supervisor: filename generation, capture
    subprocess argument construction, graceful/forced termination,
    retention cleanup, main loop).

External primitives (the Linux xattr syscalls, `os.Stat`, `os.Remove`,
the Go `time.Format` and `sort.Slice` primitives) are modelled by their documented
platform semantics; everything else is translated from the source.
-/

/-! ## Extended-attribute model

A single attribute slot on one file, as seen by the Linux syscalls
`getxattr(2)` / `removexattr(2)`:
  * `absent`: the attribute is not set (syscalls fail with `ENODATA`);
  * `val v`: the attribute is set to the byte string `v`; `getxattr`
    with a destination buffer smaller than `v` fails with `ERANGE`;
  * `ioError`: the file/filesystem fails attribute access with some
    error other than `ENODATA` (permission, missing xattr support, ...).
-/
inductive XattrVal where
  | absent : XattrVal
  | val : String → XattrVal
  | ioError : XattrVal
deriving DecidableEq

/-- Error classes of the xattr syscalls that the Go code distinguishes. -/
inductive XattrErr where
  | enodata : XattrErr
  | erange : XattrErr
  | other : XattrErr
deriving DecidableEq

/-- Model of `unix.Getxattr(path, name, buf)` with `len(buf) = bufsize`:
returns the stored value (the Go code receives its size `sz` and the
bytes), `ENODATA` when absent, `ERANGE` when the value does not fit the
buffer, or another error for an I/O failure. -/
def getxattr (x : XattrVal) (bufsize : Nat) : Except XattrErr String :=
  match x with
  | .absent => .error .enodata
  | .val v => if v.length ≤ bufsize then .ok v else .error .erange
  | .ioError => .error .other

/-- Model of `unix.Removexattr`: returns the syscall result together
with the attribute state after the call. -/
def removexattr (x : XattrVal) : Except XattrErr Unit × XattrVal :=
  match x with
  | .absent => (.error .enodata, .absent)
  | .val _ => (.ok (), .absent)
  | .ioError => (.error .other, .ioError)

/-- Function `HasMarker` (fileattributes.go lines 49-70): reads the attribute
into a 256-byte buffer (`valueData := make([]byte, 256)`); `ENODATA`
yields `(false, nil)`, any other error is propagated, and on success the
result is `sz > 0` (the stored value is non-empty). -/
def HasMarker (x : XattrVal) : Except XattrErr Bool :=
  match getxattr x 256 with
  | .error .enodata => .ok false
  | .error e => .error e
  | .ok v => .ok (v.length != 0)

/-- Function `RemoveMarker` (fileattributes.go lines 36-47): calls `Removexattr`;
`ENODATA` ("already absent") is turned into success, any other error is
wrapped and returned. The second component is the attribute state after
the call. -/
def RemoveMarker (x : XattrVal) : Except String Unit × XattrVal :=
  match removexattr x with
  | (.error .enodata, x2) => (.ok (), x2)
  | (.error _, x2) => (.error "failed to remove xattr", x2)
  | (.ok _, x2) => (.ok (), x2)

/-! ## Directory scan model -/

/-- Result of `os.Stat` on an entry: whether the file mode is regular,
and its modification time (modelled as an integer timestamp). -/
structure StatInfo where
  regular : Bool
  modTime : Int
deriving DecidableEq

/-- One entry of `os.ReadDir`: its name, whether the dirent is a
directory, the result of `os.Stat` on its path (`none` when the stat
fails), and the state of the `user.<marker>` attribute on it. -/
structure DirEntry where
  name : String
  isDir : Bool
  stat : Option StatInfo
  marker : XattrVal
deriving DecidableEq

/-- Model of `filepath.Join(directory, name)` for a directory path and
an entry name. -/
def joinPath (dir name : String) : String := dir ++ "/" ++ name

/-- Loop body of `GetFilesWithMarker` (fileattributes.go lines 80-104)
for one directory entry: directories are skipped, entries whose stat
fails are skipped with a warning, non-regular files are skipped,
entries whose `HasMarker` check errors are skipped with a warning, and
the remaining entries are kept exactly when `HasMarker` returned
true. -/
def scanEntry (dirPath : String) (e : DirEntry) : Option String :=
  if e.isDir then none
  else
    match e.stat with
    | none => none
    | some st =>
      if st.regular then
        match HasMarker e.marker with
        | .error _ => none
        | .ok b => if b then some (joinPath dirPath e.name) else none
      else none

/-- Function `GetFilesWithMarker` (fileattributes.go lines 72-106): reads the
directory (`none` models an unreadable directory, returning an error)
and collects the entries kept by `scanEntry` in directory order. -/
def GetFilesWithMarker (dir : Option (List DirEntry)) (dirPath : String) :
    Except String (List String) :=
  match dir with
  | none => .error "failed to read directory"
  | some entries => .ok (entries.filterMap (scanEntry dirPath))

/-! ## Retention cleanup model -/

/-- The comparator of `sort.Slice` in `cleanupOldFiles` (main.go lines
208-215): stat both paths; if either stat fails, return false; otherwise
compare modification times with `Before`. `stat` is the `os.Stat`
oracle giving the modification time of each path (`none` = stat failure). -/
def goLess (stat : String → Option Int) (a b : String) : Bool :=
  match stat a, stat b with
  | some ta, some tb => decide (ta < tb)
  | _, _ => false

/-- Insert `a` into `l` keeping the sort order of `le`. -/
def insertByLe (le : String → String → Bool) (a : String) :
    List String → List String
  | [] => [a]
  | b :: bs => if le a b then a :: b :: bs else b :: insertByLe le a bs

/-- Sorting by a boolean comparator. Models the Go `sort.Slice` call: for a
comparator that is a strict weak order the result is a permutation of
the input that is sorted for the comparator (the algorithm used by Go is
unspecified; any comparison sort is a faithful model). -/
def sortByLe (le : String → String → Bool) : List String → List String
  | [] => []
  | a :: as => insertByLe le a (sortByLe le as)

/-- The sorted file list of `cleanupOldFiles`: ascending by
modification time under the source comparator (an element goes before
another when the other is not older). -/
def sortFiles (stat : String → Option Int) (files : List String) : List String :=
  sortByLe (fun a b => !(goLess stat b a)) files

/-- Function `cleanupOldFiles` (main.go lines 195-227), given the scan result
`files`: when `files.length ≤ maxFiles` nothing happens; otherwise the
list is sorted oldest-first and `os.Remove` is attempted on the first
`files.length - maxFiles` entries. `removeOk` is the `os.Remove`
oracle; a failed removal is logged and skipped, so the file survives.
Returns (successfully removed files, surviving marked files). -/
def cleanupOldFiles (stat : String → Option Int) (removeOk : String → Bool)
    (files : List String) (maxFiles : Nat) : List String × List String :=
  if files.length ≤ maxFiles then ([], files)
  else
    let sorted := sortFiles stat files
    let n := files.length - maxFiles
    ((sorted.take n).filter (fun f => removeOk f),
      (sorted.take n).filter (fun f => !(removeOk f)) ++ sorted.drop n)

/-! ## Configuration and subprocess arguments -/

/-- The application configuration (main.go lines 20-28). `max_files` is
the non-negative retention cap of the data model. -/
structure Config where
  RecordingsDir : String
  MaxFiles : Nat
  RecordingLength : Nat
  Extension : String
  Codec : String
  RecordAudio : Bool
deriving DecidableEq

/-- Argument list of the capture subprocess (main.go lines 133-143):
`exec.CommandContext(ctx, "wf-recorder", "-f", filename)`, then
`-c <codec>` is appended when `Codec` is non-empty, then `-a` is
appended when `RecordAudio` is false. -/
def recordArgs (cfg : Config) (filename : String) : List String :=
  ["wf-recorder", "-f", filename]
    ++ (if cfg.Codec = "" then [] else ["-c", cfg.Codec])
    ++ (if cfg.RecordAudio then [] else ["-a"])

/-! ## Filename generation -/

/-- A wall-clock instant as used by the Go `time.Time` formatting
(year, month 1-12, day 1-31, hour 0-23, minute 0-59, second 0-59). -/
structure GoTime where
  year : Nat
  month : Nat
  day : Nat
  hour : Nat
  minute : Nat
  second : Nat
deriving DecidableEq

/-- Two-digit zero padded decimal, as the Go `appendInt(b, x, 2)` helper. -/
def pad2 (n : Nat) : String :=
  if n < 10 then "0" ++ toString n else toString n

/-- The Go 12-hour clock value of a 24-hour value (`hour % 12`, with 0
rendered as 12). -/
def hour12 (h : Nat) : Nat :=
  if h % 12 = 0 then 12 else h % 12

/-- Model of `time.Now().Format("2025-01-02_15-35-05")` (main.go line
120). The Go `Format` function scans the layout for reference-layout chunks
(reference time `2006-01-02 15:04:05`): in the layout string
`"2025-01-02_15-35-05"` the scanner finds `2` (day, unpadded), `02`
(day, padded), `5` (second, unpadded), literal `-`, `01` (month),
literal `-`, `02` (day), literal `_`, `15` (hour, padded), literal `-`,
`3` (12-hour hour, unpadded), `5` (second, unpadded), literal `-`, `05`
(second, padded). The year and the minute fields never appear: `2025`
is not the reference year `2006` and `35` is not the reference minute
`04`. -/
def dashcamTimestamp (t : GoTime) : String :=
  toString t.day ++ pad2 t.day ++ toString t.second ++ "-" ++ pad2 t.month
    ++ "-" ++ pad2 t.day ++ "_" ++ pad2 t.hour ++ "-"
    ++ toString (hour12 t.hour) ++ toString t.second ++ "-" ++ pad2 t.second

/-- Function `generateFilename` (main.go lines 119-122): joins the recordings
directory with the formatted timestamp plus the configured extension. -/
def generateFilename (cfg : Config) (t : GoTime) : String :=
  joinPath cfg.RecordingsDir (dashcamTimestamp t ++ cfg.Extension)

/-! ## Subprocess supervision model

`recordScreen` (main.go lines 125-192) races a duration timer against
the subprocess-exit channel `done`. We model one run by the scenario of
the asynchronous environment (which event wins the race, whether the
SIGINT delivery succeeds, whether the process exits inside the grace
window, and the exit statuses of the process), and give the observable
behaviour of the supervisor as an event trace plus the return value
of the function. -/

/-- Observable supervisor events of one `recordScreen` run. -/
inductive Event where
  | sigint : Event
  | killFallback : Event
  | graceElapsed : Nat → Event
  | killForced : Event
  | exitObserved : Event
  | proceedFinalize : Event
deriving DecidableEq

/-- The fixed grace window of main.go line 176 (`time.After(5 * time.Second)`). -/
def graceWindowSeconds : Nat := 5

/-- Environment scenario of one `recordScreen` run. `lateErr` is the
exit status eventually read from `done` after the stop request; it is
recorded in the scenario precisely because the code ignores it (it is
only logged). -/
structure RecScenario where
  deadlineFirst : Bool
  sigintOk : Bool
  exitsInGrace : Bool
  earlyErr : Option String
  lateErr : Option String
deriving DecidableEq

/-- Event trace of `recordScreen` (main.go lines 160-191). When the
timer fires first: SIGINT is requested (line 164); if the request
errors, the process is killed as a fallback (line 167); then the code
waits on `done` for up to 5 seconds (lines 171-180); if the grace
window elapses, the process is killed and `done` is awaited without
bound (lines 176-179); either way the exit is observed before the
function returns nil and the caller proceeds to finalization. When the
process exits first: the exit is observed; a clean exit returns nil
(finalization proceeds), an error exit returns an error (the segment is
abandoned). -/
def recordScreenTrace (s : RecScenario) : List Event :=
  if s.deadlineFirst then
    (if s.sigintOk then [Event.sigint] else [Event.sigint, Event.killFallback])
      ++ (if s.exitsInGrace then [Event.exitObserved]
          else [Event.graceElapsed graceWindowSeconds, Event.killForced,
                Event.exitObserved])
      ++ [Event.proceedFinalize]
  else
    Event.exitObserved ::
      (match s.earlyErr with
       | some _ => []
       | none => [Event.proceedFinalize])

/-- Return value of `recordScreen`: after the deadline path the
function always returns nil (main.go line 191) — a late error exit is
only logged (line 174); on the early-exit path an error status is
returned as an error (line 185), a clean exit as nil (line 188). -/
def recordScreenResult (s : RecScenario) : Except String Unit :=
  if s.deadlineFirst then .ok ()
  else
    match s.earlyErr with
    | some e => .error ("wf-recorder failed: " ++ e)
    | none => .ok ()

/-- Whether `Start` (main.go lines 265-286) attempts to attach the
standard-recording marker to the output file of this run: `SetMarker`
is reached exactly when `recordScreen` returned nil (an error makes the
loop `continue` before the marking step). -/
def markerAttachAttempted (s : RecScenario) : Bool :=
  match recordScreenResult s with
  | .ok _ => true
  | .error _ => false

/-! ## Main loop model -/

/-- Outcome of one iteration of the `Start` loop: the stop channel had
a value at the `select` (the loop returns), or `recordScreen` failed,
or it succeeded. -/
inductive IterOutcome where
  | stop : IterOutcome
  | recFail : String → IterOutcome
  | recOk : IterOutcome
deriving DecidableEq

/-- What one completed loop iteration did. -/
structure IterRecord where
  counter : Nat
  markAttempted : Bool
  cleanupRan : Bool
deriving DecidableEq

/-- The `Start` loop (main.go lines 253-295) over a list of iteration
outcomes, carrying `loopcounter`. Each iteration first increments the
counter (line 255); on a stop signal the loop returns; on a recording
failure the iteration sleeps and continues (no marking, no cleanup); on
success the marker is attached and cleanup runs exactly when
`loopcounter % 10 == 0` (line 289). Returns the records of the
completed (non-stop) iterations in order. -/
def StartLoop : Nat → List IterOutcome → List IterRecord
  | _, [] => []
  | c, o :: rest =>
    match o with
    | .stop => []
    | .recFail _ =>
        { counter := c + 1, markAttempted := false, cleanupRan := false } ::
          StartLoop (c + 1) rest
    | .recOk =>
        { counter := c + 1, markAttempted := true,
          cleanupRan := (c + 1) % 10 == 0 } :: StartLoop (c + 1) rest

/-! ## Helper lemmas about the sort -/

theorem perm_insertByLe (le : String → String → Bool) (a : String)
    (l : List String) : List.Perm (insertByLe le a l) (a :: l) := by
  induction l with
  | nil => simp [insertByLe]
  | cons b bs ih =>
    simp only [insertByLe]
    cases hab : le a b
    · rw [if_neg (by simp [hab])]
      exact ((ih.cons b).trans (List.Perm.swap a b bs))
    · rw [if_pos rfl]

theorem perm_sortByLe (le : String → String → Bool) (l : List String) :
    List.Perm (sortByLe le l) l := by
  induction l with
  | nil => simp [sortByLe]
  | cons a as ih =>
    exact (perm_insertByLe le a (sortByLe le as)).trans (ih.cons a)

theorem mem_sortFiles (stat : String → Option Int) (files : List String)
    (x : String) : x ∈ sortFiles stat files ↔ x ∈ files :=
  (perm_sortByLe _ files).mem_iff

theorem length_sortFiles (stat : String → Option Int) (files : List String) :
    (sortFiles stat files).length = files.length :=
  (perm_sortByLe _ files).length_eq

theorem pairwise_insertByLe (le : String → String → Bool) (a : String)
    (l : List String)
    (htot : ∀ b ∈ l, le a b = true ∨ le b a = true)
    (htrans : ∀ b ∈ l, ∀ c ∈ l, le a b = true → le b c = true → le a c = true)
    (hp : l.Pairwise (fun x y => le x y = true)) :
    (insertByLe le a l).Pairwise (fun x y => le x y = true) := by
  induction l with
  | nil => simp [insertByLe]
  | cons b bs ih =>
    rcases hp with _ | ⟨hb, hbs⟩
    simp only [insertByLe]
    cases hab : le a b
    · rw [if_neg (by simp [hab])]
      have hba : le b a = true := by
        rcases htot b (by simp) with h1 | h1
        · rw [hab] at h1; exact absurd h1 (by simp)
        · exact h1
      refine List.Pairwise.cons ?_ ?_
      · intro x hx
        have hx2 : x ∈ a :: bs := (perm_insertByLe le a bs).subset hx
        rw [List.mem_cons] at hx2
        rcases hx2 with rfl | hx2
        · exact hba
        · exact hb x hx2
      · exact ih (fun c hc => htot c (by simp [hc]))
          (fun c hc d hd => htrans c (by simp [hc]) d (by simp [hd])) hbs
    · rw [if_pos rfl]
      refine List.Pairwise.cons ?_ (List.Pairwise.cons hb hbs)
      intro x hx
      rw [List.mem_cons] at hx
      rcases hx with rfl | hx
      · exact hab
      · exact htrans b (by simp) x (by simp [hx]) hab (hb x hx)

theorem pairwise_sortByLe (le : String → String → Bool) (l : List String)
    (htot : ∀ a ∈ l, ∀ b ∈ l, le a b = true ∨ le b a = true)
    (htrans : ∀ a ∈ l, ∀ b ∈ l, ∀ c ∈ l,
      le a b = true → le b c = true → le a c = true) :
    (sortByLe le l).Pairwise (fun x y => le x y = true) := by
  induction l with
  | nil => simp [sortByLe]
  | cons a as ih =>
    have hmem : ∀ x ∈ sortByLe le as, x ∈ as :=
      fun x hx => (perm_sortByLe le as).subset hx
    exact pairwise_insertByLe le a (sortByLe le as)
      (fun b hb => htot a (by simp) b (by simp [hmem b hb]))
      (fun b hb c hc => htrans a (by simp) b (by simp [hmem b hb])
        c (by simp [hmem c hc]))
      (ih (fun x hx y hy => htot x (by simp [hx]) y (by simp [hy]))
        (fun x hx y hy z hz => htrans x (by simp [hx]) y (by simp [hy])
          z (by simp [hz])))

/-! ## Claim C1: retention bound and oldest-first eviction -/

theorem totality_cleanup_le (stat : String → Option Int) (a b : String) :
    (!(goLess stat b a)) = true ∨ (!(goLess stat a b)) = true := by
  by_cases h1 : goLess stat b a = true
  · right
    rw [Bool.not_eq_true']
    unfold goLess at h1 ⊢
    rcases ha : stat a with _ | ta <;> rcases hb : stat b with _ | tb <;>
      simp [ha, hb] at h1 ⊢
    omega
  · left
    rw [Bool.not_eq_true']
    cases hbool : goLess stat b a
    · rfl
    · exact absurd hbool h1

theorem trans_cleanup_le (stat : String → Option Int) (a b c : String)
    (hsa : (stat a).isSome = true) (hsb : (stat b).isSome = true)
    (hsc : (stat c).isSome = true)
    (h1 : (!(goLess stat b a)) = true) (h2 : (!(goLess stat c b)) = true) :
    (!(goLess stat c a)) = true := by
  rcases Option.isSome_iff_exists.mp hsa with ⟨ta, hta⟩
  rcases Option.isSome_iff_exists.mp hsb with ⟨tb, htb⟩
  rcases Option.isSome_iff_exists.mp hsc with ⟨tc, htc⟩
  rw [Bool.not_eq_true'] at h1 h2 ⊢
  unfold goLess at h1 h2 ⊢
  simp [hta, htb, htc] at h1 h2 ⊢
  omega

theorem sortFiles_pairwise (stat : String → Option Int) (files : List String)
    (hstat : ∀ f ∈ files, (stat f).isSome = true) :
    (sortFiles stat files).Pairwise
      (fun x y => (!(goLess stat y x)) = true) := by
  exact pairwise_sortByLe _ files
    (fun a _ b _ => totality_cleanup_le stat a b)
    (fun a ha b hb c hc h1 h2 =>
      trans_cleanup_le stat a b c (hstat a ha) (hstat b hb) (hstat c hc) h1 h2)

/-- Claim C1: for every set of marked files returned by the marker scan
with distinct modification times (and with every `os.Stat` and
`os.Remove` succeeding, as the claim presupposes), after one cleanup
pass the number of surviving marked files is at most `max_files`;
exactly `count - max_files` files are deleted (none when
`count ≤ max_files`, in which case the set is untouched); and the
modification time of every surviving file is at least the modification
time of every removed file. -/
theorem cleanupOldFiles_retention_bound
    (stat : String → Option Int) (removeOk : String → Bool)
    (files : List String) (maxFiles : Nat)
    (hstat : ∀ f ∈ files, (stat f).isSome = true)
    (hdist : files.Pairwise (fun a b => stat a ≠ stat b))
    (hrem : ∀ f ∈ files, removeOk f = true) :
    (cleanupOldFiles stat removeOk files maxFiles).2.length ≤ maxFiles
    ∧ (cleanupOldFiles stat removeOk files maxFiles).1.length
        = files.length - maxFiles
    ∧ (files.length ≤ maxFiles →
        (cleanupOldFiles stat removeOk files maxFiles).1 = []
        ∧ (cleanupOldFiles stat removeOk files maxFiles).2 = files)
    ∧ (∀ r ∈ (cleanupOldFiles stat removeOk files maxFiles).1,
        ∀ k ∈ (cleanupOldFiles stat removeOk files maxFiles).2,
        ∀ tr tk : Int, stat r = some tr → stat k = some tk → tr ≤ tk) := by
  by_cases h : files.length ≤ maxFiles
  · refine ⟨?_, ?_, fun _ => ?_, ?_⟩
    · simp only [cleanupOldFiles, h, if_pos]

    · have hz : files.length - maxFiles = 0 := by omega
      simp [cleanupOldFiles, h, hz]
    · simp [cleanupOldFiles, h]
    · intro r hr
      simp [cleanupOldFiles, h] at hr
  · have hslen : (sortFiles stat files).length = files.length :=
      length_sortFiles stat files
    have hsub : ∀ x ∈ sortFiles stat files, x ∈ files :=
      fun x hx => (mem_sortFiles stat files x).mp hx
    have hn : files.length - maxFiles ≤ (sortFiles stat files).length := by
      omega
    have hfilter1 :
        ((sortFiles stat files).take (files.length - maxFiles)).filter
          (fun f => removeOk f)
        = (sortFiles stat files).take (files.length - maxFiles) :=
      List.filter_eq_self.mpr
        (fun a ha => hrem a (hsub a (List.mem_of_mem_take ha)))
    have hfilter2 :
        ((sortFiles stat files).take (files.length - maxFiles)).filter
          (fun f => !(removeOk f)) = [] :=
      List.filter_eq_nil_iff.mpr
        (fun a ha => by
          simp [hrem a (hsub a (List.mem_of_mem_take ha))])
    have hc1 : (cleanupOldFiles stat removeOk files maxFiles).1
        = (sortFiles stat files).take (files.length - maxFiles) := by
      simp only [cleanupOldFiles, h, if_neg, not_false_eq_true]
      exact hfilter1
    have hc2 : (cleanupOldFiles stat removeOk files maxFiles).2
        = (sortFiles stat files).drop (files.length - maxFiles) := by
      simp only [cleanupOldFiles, h, if_neg, not_false_eq_true]
      rw [hfilter2, List.nil_append]
    have hpair := sortFiles_pairwise stat files hstat
    have hsplit := List.take_append_drop (files.length - maxFiles)
      (sortFiles stat files)
    have horder : ∀ r ∈ (sortFiles stat files).take (files.length - maxFiles),
        ∀ k ∈ (sortFiles stat files).drop (files.length - maxFiles),
        (!(goLess stat k r)) = true := by
      have := List.pairwise_append.mp (hsplit ▸ hpair)
      exact this.2.2
    refine ⟨?_, ?_, fun hle => absurd hle h, ?_⟩
    · rw [hc2, List.length_drop]
      omega
    · rw [hc1, List.length_take]
      omega
    · intro r hr k hk tr tk htr htk
      rw [hc1] at hr
      rw [hc2] at hk
      have hlt := horder r hr k hk
      rw [Bool.not_eq_true'] at hlt
      unfold goLess at hlt
      simp [htr, htk] at hlt
      omega

/-- Concrete stat oracle for witnesses: three files with distinct
modification times 1 < 2 < 3. -/
def statW : String → Option Int := fun p =>
  if p = "a" then some 1
  else if p = "b" then some 2
  else if p = "c" then some 3
  else none

theorem cleanupOldFiles_retention_bound_witness :
    (cleanupOldFiles statW (fun _ => true) ["c", "a", "b"] 2).2.length ≤ 2
    ∧ (cleanupOldFiles statW (fun _ => true) ["c", "a", "b"] 2).1.length
        = (["c", "a", "b"] : List String).length - 2
    ∧ ((["c", "a", "b"] : List String).length ≤ 2 →
        (cleanupOldFiles statW (fun _ => true) ["c", "a", "b"] 2).1 = []
        ∧ (cleanupOldFiles statW (fun _ => true) ["c", "a", "b"] 2).2
            = ["c", "a", "b"])
    ∧ (∀ r ∈ (cleanupOldFiles statW (fun _ => true) ["c", "a", "b"] 2).1,
        ∀ k ∈ (cleanupOldFiles statW (fun _ => true) ["c", "a", "b"] 2).2,
        ∀ tr tk : Int, statW r = some tr → statW k = some tk → tr ≤ tk) :=
  cleanupOldFiles_retention_bound statW (fun _ => true) ["c", "a", "b"] 2
    (by decide) (by decide) (by decide)

/-! ## Claims C9 and C2: scan robustness and inertness of untracked files -/

theorem scanEntry_eq_some (dirPath : String) (e : DirEntry) (p : String) :
    scanEntry dirPath e = some p ↔
      e.isDir = false
      ∧ (∃ st, e.stat = some st ∧ st.regular = true)
      ∧ HasMarker e.marker = Except.ok true
      ∧ p = joinPath dirPath e.name := by
  unfold scanEntry
  cases hd : e.isDir
  · cases hst : e.stat with
    | none => simp [hst]
    | some st =>
      cases hreg : st.regular
      · simp [hst, hreg]
      · cases hm : HasMarker e.marker with
        | error er => simp [hst, hreg, hm]
        | ok b =>
          cases b
          · simp [hst, hreg, hm]
          · simp [hst, hreg, hm]
            exact eq_comm
  · simp [hd]

/-- Claim C9: over a readable directory the scan never returns an
error; a path is in the result exactly when some entry is a regular
file (directory flag false, stat successful and regular) whose marker
check succeeded with true — so a directory, a stat failure, a
non-regular mode or a marker-read failure only excludes that entry, and
every other marked entry is still returned. -/
theorem GetFilesWithMarker_skips_bad_entries
    (entries : List DirEntry) (dirPath : String) :
    ∃ l, GetFilesWithMarker (some entries) dirPath = Except.ok l
      ∧ ∀ p, p ∈ l ↔ ∃ e, e ∈ entries ∧ e.isDir = false
          ∧ (∃ st, e.stat = some st ∧ st.regular = true)
          ∧ HasMarker e.marker = Except.ok true
          ∧ p = joinPath dirPath e.name := by
  refine ⟨_, rfl, ?_⟩
  intro p
  simp only [List.mem_filterMap, scanEntry_eq_some]

/-- A scan over one good marked entry, one stat-failed entry, one
directory, one marker-error entry and one unmarked entry returns
exactly the good entry. -/
theorem GetFilesWithMarker_skips_bad_entries_witness :
    ∃ l, GetFilesWithMarker
        (some [⟨"good", false, some ⟨true, 1⟩, XattrVal.val "standard_recording"⟩,
               ⟨"bad", false, none, XattrVal.val "standard_recording"⟩,
               ⟨"sub", true, some ⟨false, 2⟩, XattrVal.val "standard_recording"⟩,
               ⟨"err", false, some ⟨true, 3⟩, XattrVal.ioError⟩,
               ⟨"plain", false, some ⟨true, 4⟩, XattrVal.absent⟩]) "d"
        = Except.ok l
      ∧ ∀ p, p ∈ l ↔ ∃ e,
          e ∈ [⟨"good", false, some ⟨true, 1⟩, XattrVal.val "standard_recording"⟩,
               ⟨"bad", false, none, XattrVal.val "standard_recording"⟩,
               ⟨"sub", true, some ⟨false, 2⟩, XattrVal.val "standard_recording"⟩,
               ⟨"err", false, some ⟨true, 3⟩, XattrVal.ioError⟩,
               (⟨"plain", false, some ⟨true, 4⟩, XattrVal.absent⟩ : DirEntry)]
          ∧ e.isDir = false
          ∧ (∃ st, e.stat = some st ∧ st.regular = true)
          ∧ HasMarker e.marker = Except.ok true
          ∧ p = joinPath "d" e.name :=
  GetFilesWithMarker_skips_bad_entries _ "d"

theorem joinPath_name_inj (dir n1 n2 : String)
    (h : joinPath dir n1 = joinPath dir n2) : n1 = n2 := by
  unfold joinPath at h
  have h2 := congrArg String.data h
  simp only [String.data_append] at h2
  have h3 := List.append_cancel_left h2
  cases n1; cases n2; exact congrArg String.mk h3

theorem pairwise_name_mem_inj (entries : List DirEntry) (a b : DirEntry)
    (hnames : entries.Pairwise (fun x y => x.name ≠ y.name))
    (ha : a ∈ entries) (hb : b ∈ entries) (h : a.name = b.name) : a = b := by
  induction entries with
  | nil => cases ha
  | cons x xs ih =>
    rcases List.pairwise_cons.mp hnames with ⟨hx, hxs⟩
    rcases List.mem_cons.mp ha with rfl | ha2
    · rcases List.mem_cons.mp hb with rfl | hb2
      · rfl
      · exact absurd h (hx b hb2)
    · rcases List.mem_cons.mp hb with rfl | hb2
      · exact absurd h.symm (hx a ha2)
      · exact ih hxs ha2 hb2

theorem hasMarker_not_true_of_unmarked (x : XattrVal)
    (h : ∀ v, x = XattrVal.val v → v = "") :
    HasMarker x ≠ Except.ok true := by
  cases x with
  | absent => intro hc; cases hc
  | val v =>
    have hv := h v rfl
    subst hv
    intro hc; cases hc
  | ioError => intro hc; cases hc

theorem cleanup_removed_subset (stat : String → Option Int)
    (removeOk : String → Bool) (files : List String) (maxFiles : Nat) :
    ∀ p ∈ (cleanupOldFiles stat removeOk files maxFiles).1, p ∈ files := by
  intro p hp
  unfold cleanupOldFiles at hp
  by_cases h : files.length ≤ maxFiles
  · simp [h] at hp
  · simp only [h, if_neg, not_false_eq_true] at hp
    exact (mem_sortFiles stat files p).mp
      (List.mem_of_mem_take (List.mem_of_mem_filter hp))

/-- Claim C2: a file of the recordings directory that does not carry
the marker attribute with a non-empty value (absent attribute, empty
value, or unreadable attribute state — partial writes and foreign
files) is never part of the marked-file scan result, hence never
counted toward `max_files`, and is never among the files removed by a
retention cleanup pass over that scan result; only scanned paths are
deletion candidates. -/
theorem untracked_files_inert
    (entries : List DirEntry) (dirPath : String)
    (stat : String → Option Int) (removeOk : String → Bool) (maxFiles : Nat)
    (e : DirEntry) (he : e ∈ entries)
    (hnames : entries.Pairwise (fun x y => x.name ≠ y.name))
    (hunmarked : ∀ v, e.marker = XattrVal.val v → v = "") :
    ∃ l, GetFilesWithMarker (some entries) dirPath = Except.ok l
      ∧ joinPath dirPath e.name ∉ l
      ∧ joinPath dirPath e.name ∉ (cleanupOldFiles stat removeOk l maxFiles).1 := by
  refine ⟨_, rfl, ?_, ?_⟩
  · intro hmem
    rcases List.mem_filterMap.mp hmem with ⟨e2, he2, hsome⟩
    rcases (scanEntry_eq_some dirPath e2 _).mp hsome with
      ⟨_, _, hmark, hpeq⟩
    have hname : e.name = e2.name := joinPath_name_inj dirPath _ _ hpeq
    have : e = e2 := pairwise_name_mem_inj entries e e2 hnames he he2 hname
    subst this
    exact hasMarker_not_true_of_unmarked e.marker hunmarked hmark
  · intro hmem
    have hinl := cleanup_removed_subset stat removeOk _ maxFiles _ hmem
    rcases List.mem_filterMap.mp hinl with ⟨e2, he2, hsome⟩
    rcases (scanEntry_eq_some dirPath e2 _).mp hsome with
      ⟨_, _, hmark, hpeq⟩
    have hname : e.name = e2.name := joinPath_name_inj dirPath _ _ hpeq
    have : e = e2 := pairwise_name_mem_inj entries e e2 hnames he he2 hname
    subst this
    exact hasMarker_not_true_of_unmarked e.marker hunmarked hmark

theorem untracked_files_inert_witness :
    ∃ l, GetFilesWithMarker
        (some [⟨"young", false, some ⟨true, 100⟩, XattrVal.absent⟩,
               ⟨"m1", false, some ⟨true, 1⟩, XattrVal.val "standard_recording"⟩,
               ⟨"m2", false, some ⟨true, 2⟩, XattrVal.val "standard_recording"⟩]) "d"
        = Except.ok l
      ∧ joinPath "d" "young" ∉ l
      ∧ joinPath "d" "young" ∉ (cleanupOldFiles statW (fun _ => true) l 1).1 :=
  untracked_files_inert
    [⟨"young", false, some ⟨true, 100⟩, XattrVal.absent⟩,
     ⟨"m1", false, some ⟨true, 1⟩, XattrVal.val "standard_recording"⟩,
     ⟨"m2", false, some ⟨true, 2⟩, XattrVal.val "standard_recording"⟩] "d"
    statW (fun _ => true) 1
    ⟨"young", false, some ⟨true, 100⟩, XattrVal.absent⟩
    (by simp) (by simp) (fun v h => XattrVal.noConfusion h)

/-! ## Claim C3: the HasMarker contract -/

theorem string_length_eq_zero (v : String) : v.length = 0 ↔ v = "" := by
  cases v with
  | mk l =>
    constructor
    · intro h
      have hl : l = [] := List.length_eq_zero.mp h
      rw [hl]
    · intro h; rw [h]; rfl

set_option maxRecDepth 8192

/-- A marker value longer than the 256-byte read buffer of `HasMarker`. -/
def longVal : String := String.mk (List.replicate 257 'a')

/-- Claim C3 counterexample: `longVal` is a present, non-empty stored
value, yet `HasMarker` does not return true on it — the 256-byte read
buffer makes `unix.Getxattr` fail with `ERANGE`, which `HasMarker`
propagates as an error. The claimed equivalence is false at this
input. -/
theorem HasMarker_longValue_counterexample :
    ¬ (HasMarker (XattrVal.val longVal) = Except.ok true ↔
        ∃ v, XattrVal.val longVal = XattrVal.val v ∧ v ≠ "") := by
  intro h
  have h2 : HasMarker (XattrVal.val longVal) = Except.ok true :=
    h.mpr ⟨longVal, rfl, by decide⟩
  have h3 : HasMarker (XattrVal.val longVal) = Except.error XattrErr.erange := by
    rfl
  rw [h3] at h2
  cases h2

/-- An entry whose marker attribute has no non-empty stored value is
not produced by the directory scan (given distinct entry names). -/
theorem unmarked_not_in_scan (entries : List DirEntry) (dirPath : String)
    (e : DirEntry) (he : e ∈ entries)
    (hnames : entries.Pairwise (fun x y => x.name ≠ y.name))
    (hunmarked : ∀ v, e.marker = XattrVal.val v → v = "") :
    joinPath dirPath e.name ∉ entries.filterMap (scanEntry dirPath) := by
  intro hmem
  rcases List.mem_filterMap.mp hmem with ⟨e2, he2, hsome⟩
  rcases (scanEntry_eq_some dirPath e2 _).mp hsome with ⟨_, _, hmark, hpeq⟩
  have hname : e.name = e2.name := joinPath_name_inj dirPath _ _ hpeq
  have heq : e = e2 := pairwise_name_mem_inj entries e e2 hnames he he2 hname
  subst heq
  exact hasMarker_not_true_of_unmarked e.marker hunmarked hmark

/-- Claim C3 (amended): `HasMarker` returns true iff the attribute is
present with a non-empty stored value **that fits the 256-byte read
buffer** — a stored value longer than 256 bytes makes the read fail
with `ERANGE` and `HasMarker` returns that error instead. The rest of
the claim stands as written: an attribute present with an empty value
yields false without error, and such a file is excluded from the
marked-file listing. -/
theorem HasMarker_amended_spec :
    (∀ x : XattrVal, HasMarker x = Except.ok true ↔
        ∃ v, x = XattrVal.val v ∧ v ≠ "" ∧ v.length ≤ 256)
    ∧ HasMarker (XattrVal.val "") = Except.ok false
    ∧ (∀ (entries : List DirEntry) (dirPath : String) (e : DirEntry),
        e ∈ entries →
        entries.Pairwise (fun x y => x.name ≠ y.name) →
        e.marker = XattrVal.val "" →
        ∀ l, GetFilesWithMarker (some entries) dirPath = Except.ok l →
          joinPath dirPath e.name ∉ l) := by
  refine ⟨?_, rfl, ?_⟩
  · intro x
    cases x with
    | absent => simp [HasMarker, getxattr]
    | val v =>
      by_cases hlen : v.length ≤ 256
      · have hne : (v.length != 0) = true ↔ v ≠ "" := by
          rw [bne_iff_ne]
          simp [string_length_eq_zero]
        simp only [HasMarker, getxattr, hlen, if_pos, XattrVal.val.injEq]
        constructor
        · intro hok
          refine ⟨v, rfl, ?_, hlen⟩
          have : (v.length != 0) = true := by
            cases hb : (v.length != 0)
            · rw [hb] at hok; cases hok
            · rfl
          exact hne.mp this
        · rintro ⟨v2, rfl, hv2, _⟩
          rw [hne.mpr hv2]
      · simp only [HasMarker, getxattr, hlen, if_neg, not_false_eq_true,
          XattrVal.val.injEq]
        constructor
        · intro hok; cases hok
        · rintro ⟨v2, rfl, _, hc⟩
          exact absurd hc hlen
    | ioError => simp [HasMarker, getxattr]
  · intro entries dirPath e he hnames hmark l hl
    have hl2 : l = entries.filterMap (scanEntry dirPath) := by
      simp only [GetFilesWithMarker, Except.ok.injEq] at hl
      exact hl.symm
    rw [hl2]
    exact unmarked_not_in_scan entries dirPath e he hnames
      (fun v h => by rw [hmark] at h; exact (XattrVal.val.inj h).symm)

theorem HasMarker_amended_spec_witness :
    HasMarker (XattrVal.val "standard_recording") = Except.ok true
    ∧ HasMarker (XattrVal.val "") = Except.ok false
    ∧ joinPath "d" "empty" ∉ [joinPath "d" "m"] :=
  ⟨(HasMarker_amended_spec.1 (XattrVal.val "standard_recording")).mpr
      ⟨"standard_recording", rfl, by decide, by decide⟩,
   HasMarker_amended_spec.2.1,
   HasMarker_amended_spec.2.2
     [⟨"empty", false, some ⟨true, 0⟩, XattrVal.val ""⟩,
      ⟨"m", false, some ⟨true, 1⟩, XattrVal.val "x"⟩] "d"
     ⟨"empty", false, some ⟨true, 0⟩, XattrVal.val ""⟩
     (by simp) (by simp) rfl [joinPath "d" "m"] rfl⟩

/-! ## Claim C8: RemoveMarker idempotence -/

/-- Claim C8: removing the marker from a path whose attribute is
already absent succeeds and leaves the state unchanged; and running
`RemoveMarker` twice in a row returns the same result and leaves the
path in the same attribute state as running it once — for every
starting state (absent, present, or erroring). -/
theorem RemoveMarker_idempotent (x : XattrVal) :
    (x = XattrVal.absent → RemoveMarker x = (Except.ok (), XattrVal.absent))
    ∧ (RemoveMarker (RemoveMarker x).2).1 = (RemoveMarker x).1
    ∧ (RemoveMarker (RemoveMarker x).2).2 = (RemoveMarker x).2 := by
  cases x with
  | absent => exact ⟨fun _ => rfl, rfl, rfl⟩
  | val v => exact ⟨fun h => XattrVal.noConfusion h, rfl, rfl⟩
  | ioError => exact ⟨fun h => XattrVal.noConfusion h, rfl, rfl⟩

theorem RemoveMarker_idempotent_witness :
    RemoveMarker XattrVal.absent = (Except.ok (), XattrVal.absent)
    ∧ (RemoveMarker
        (RemoveMarker (XattrVal.val "standard_recording")).2).1
        = (RemoveMarker (XattrVal.val "standard_recording")).1 :=
  ⟨(RemoveMarker_idempotent XattrVal.absent).1 rfl,
   (RemoveMarker_idempotent (XattrVal.val "standard_recording")).2.1⟩

/-! ## Claim C4: capture subprocess argument list -/

/-- Claim C4: the argument list contains the audio flag `-a` exactly
when `record_audio` is false; it contains the codec flag `-c` exactly
when the configured codec is non-empty, and then `-c` is immediately
followed by the codec; and the output-path argument (`-f` followed by
the filename) is always present. The hypotheses exclude a filename or
codec string that is itself spelled `-a` or `-c`, which would make flag
membership ambiguous. -/
theorem recordArgs_flags (cfg : Config) (filename : String)
    (hfa : filename ≠ "-a") (hfc : filename ≠ "-c") (hca : cfg.Codec ≠ "-a") :
    (("-a" ∈ recordArgs cfg filename) ↔ cfg.RecordAudio = false)
    ∧ (("-c" ∈ recordArgs cfg filename) ↔ cfg.Codec ≠ "")
    ∧ (cfg.Codec ≠ "" →
        ∃ l1 l2, recordArgs cfg filename = l1 ++ "-c" :: cfg.Codec :: l2)
    ∧ (∃ l1 l2, recordArgs cfg filename
        = l1 ++ "-f" :: filename :: l2) := by
  by_cases hcodec : cfg.Codec = ""
  · cases haud : cfg.RecordAudio
    · have hargs : recordArgs cfg filename
          = ["wf-recorder", "-f", filename, "-a"] := by
        simp [recordArgs, hcodec, haud]
      refine ⟨?_, ?_, fun hc => absurd hcodec hc, ?_⟩
      · rw [hargs]; simp
      · rw [hargs, hcodec]; simp [Ne.symm hfc]
      · exact ⟨["wf-recorder"], ["-a"], by rw [hargs]; rfl⟩
    · have hargs : recordArgs cfg filename
          = ["wf-recorder", "-f", filename] := by
        simp [recordArgs, hcodec, haud]
      refine ⟨?_, ?_, fun hc => absurd hcodec hc, ?_⟩
      · rw [hargs]; simp [Ne.symm hfa]
      · rw [hargs, hcodec]; simp [Ne.symm hfc]
      · exact ⟨["wf-recorder"], [], by rw [hargs]; rfl⟩
  · cases haud : cfg.RecordAudio
    · have hargs : recordArgs cfg filename
          = ["wf-recorder", "-f", filename, "-c", cfg.Codec, "-a"] := by
        simp [recordArgs, hcodec, haud]
      refine ⟨?_, ?_, fun _ => ?_, ?_⟩
      · rw [hargs]; simp
      · rw [hargs]; simp [hcodec]
      · exact ⟨["wf-recorder", "-f", filename], ["-a"], by rw [hargs]; rfl⟩
      · exact ⟨["wf-recorder"], ["-c", cfg.Codec, "-a"], by rw [hargs]; rfl⟩
    · have hargs : recordArgs cfg filename
          = ["wf-recorder", "-f", filename, "-c", cfg.Codec] := by
        simp [recordArgs, hcodec, haud]
      refine ⟨?_, ?_, fun _ => ?_, ?_⟩
      · rw [hargs]; simp [Ne.symm hfa, Ne.symm hca]
      · rw [hargs]; simp [hcodec]
      · exact ⟨["wf-recorder", "-f", filename], [], by rw [hargs]; rfl⟩
      · exact ⟨["wf-recorder"], ["-c", cfg.Codec], by rw [hargs]; rfl⟩

/-- The default configuration, used as a concrete witness input. -/
def cfgW : Config :=
  ⟨"/home/user/recordings", 60, 60, ".mkv", "libx265", false⟩

theorem recordArgs_flags_witness :
    (("-a" ∈ recordArgs cfgW "/home/user/recordings/f.mkv")
        ↔ cfgW.RecordAudio = false)
    ∧ (("-c" ∈ recordArgs cfgW "/home/user/recordings/f.mkv")
        ↔ cfgW.Codec ≠ "")
    ∧ (cfgW.Codec ≠ "" →
        ∃ l1 l2, recordArgs cfgW "/home/user/recordings/f.mkv"
          = l1 ++ "-c" :: cfgW.Codec :: l2)
    ∧ (∃ l1 l2, recordArgs cfgW "/home/user/recordings/f.mkv"
        = l1 ++ "-f" :: "/home/user/recordings/f.mkv" :: l2) :=
  recordArgs_flags cfgW "/home/user/recordings/f.mkv"
    (by decide) (by decide) (by decide)

/-! ## Claim C7: timestamp filenames are not injective per second -/

/-- Claim C7 is false of the code as written: the Go layout string
`"2025-01-02_15-35-05"` is not the reference layout
`"2006-01-02_15-04-05"`, so neither the year nor the minute is ever
emitted. Two instants in different whole seconds that differ only in
the minute produce the same timestamp and hence the same path under
every configuration: here 2025-06-01 10:00:30 and 2025-06-01 10:01:30
(both render as `"10130-06-01_10-1030-30"`). -/
theorem generateFilename_minute_collision :
    dashcamTimestamp ⟨2025, 6, 1, 10, 0, 30⟩
        = dashcamTimestamp ⟨2025, 6, 1, 10, 1, 30⟩
    ∧ (⟨2025, 6, 1, 10, 0, 30⟩ : GoTime) ≠ ⟨2025, 6, 1, 10, 1, 30⟩
    ∧ ∀ cfg : Config, generateFilename cfg ⟨2025, 6, 1, 10, 0, 30⟩
        = generateFilename cfg ⟨2025, 6, 1, 10, 1, 30⟩ := by
  refine ⟨by decide, by decide, fun cfg => ?_⟩
  unfold generateFilename
  rw [show dashcamTimestamp ⟨2025, 6, 1, 10, 0, 30⟩
      = dashcamTimestamp ⟨2025, 6, 1, 10, 1, 30⟩ from by decide]

/-! ## Claim C5: graceful-then-forced termination ordering -/

/-- In a trace whose prefix before the first observed exit contains no
finalization step, every finalization step is preceded by an observed
exit. -/
theorem proceed_after_exit_of_takeWhile (tr : List Event)
    (h : Event.proceedFinalize ∉
      tr.takeWhile (fun e => e != Event.exitObserved)) :
    ∀ i : Nat, tr[i]? = some Event.proceedFinalize →
      ∃ j : Nat, j < i ∧ tr[j]? = some Event.exitObserved := by
  induction tr with
  | nil => intro i hi; simp at hi
  | cons e rest ih =>
    intro i hi
    by_cases he : e = Event.exitObserved
    · cases i with
      | zero =>
        subst he
        simp at hi
      | succ k => exact ⟨0, Nat.succ_pos k, by rw [he]; simp⟩
    · have hTW : (e :: rest).takeWhile (fun x => x != Event.exitObserved)
          = e :: rest.takeWhile (fun x => x != Event.exitObserved) := by
        simp [List.takeWhile_cons, he]
      rw [hTW, List.mem_cons] at h
      push_neg at h
      cases i with
      | zero =>
        simp at hi
        exact absurd hi.symm h.1
      | succ k =>
        rcases ih h.2 k (by simpa using hi) with ⟨j, hj, hx⟩
        exact ⟨j + 1, Nat.succ_lt_succ hj, by simpa using hx⟩

/-- Claim C5: when the recording deadline fires before the subprocess
exits, the supervisor first requests cooperative termination (SIGINT is
the head of the trace); when the subprocess does not exit within the
5-second grace window, the window elapses, then a forced kill occurs,
then the exit is observed, in that order; and in every scenario the
supervisor reaches finalization only after the subprocess exit has been
observed (and it does reach it). -/
theorem recordScreen_graceful_then_forced (s : RecScenario)
    (hd : s.deadlineFirst = true) :
    (recordScreenTrace s).head? = some Event.sigint
    ∧ (s.exitsInGrace = false →
        ∃ i j k : Nat, i < j ∧ j < k
          ∧ (recordScreenTrace s)[i]?
              = some (Event.graceElapsed graceWindowSeconds)
          ∧ (recordScreenTrace s)[j]? = some Event.killForced
          ∧ (recordScreenTrace s)[k]? = some Event.exitObserved)
    ∧ (∀ i : Nat, (recordScreenTrace s)[i]? = some Event.proceedFinalize →
        ∃ j : Nat, j < i
          ∧ (recordScreenTrace s)[j]? = some Event.exitObserved)
    ∧ Event.proceedFinalize ∈ recordScreenTrace s := by
  rcases s with ⟨df, so, eg, ee, le2⟩
  cases df
  · cases hd
  · cases so <;> cases eg
    · have htr : recordScreenTrace ⟨true, false, false, ee, le2⟩
          = [Event.sigint, Event.killFallback,
             Event.graceElapsed graceWindowSeconds, Event.killForced,
             Event.exitObserved, Event.proceedFinalize] := rfl
      rw [htr]
      exact ⟨by decide,
        fun _ => ⟨2, 3, 4, by decide, by decide, by decide, by decide,
          by decide⟩,
        proceed_after_exit_of_takeWhile _ (by decide), by decide⟩
    · have htr : recordScreenTrace ⟨true, false, true, ee, le2⟩
          = [Event.sigint, Event.killFallback, Event.exitObserved,
             Event.proceedFinalize] := rfl
      rw [htr]
      exact ⟨by decide, fun hg => Bool.noConfusion hg,
        proceed_after_exit_of_takeWhile _ (by decide), by decide⟩
    · have htr : recordScreenTrace ⟨true, true, false, ee, le2⟩
          = [Event.sigint, Event.graceElapsed graceWindowSeconds,
             Event.killForced, Event.exitObserved,
             Event.proceedFinalize] := rfl
      rw [htr]
      exact ⟨by decide,
        fun _ => ⟨1, 2, 3, by decide, by decide, by decide, by decide,
          by decide⟩,
        proceed_after_exit_of_takeWhile _ (by decide), by decide⟩
    · have htr : recordScreenTrace ⟨true, true, true, ee, le2⟩
          = [Event.sigint, Event.exitObserved, Event.proceedFinalize] := rfl
      rw [htr]
      exact ⟨by decide, fun hg => Bool.noConfusion hg,
        proceed_after_exit_of_takeWhile _ (by decide), by decide⟩

theorem recordScreen_graceful_then_forced_witness :
    (recordScreenTrace ⟨true, true, false, none, some "exit status 1"⟩).head?
        = some Event.sigint
    ∧ ((⟨true, true, false, none, some "exit status 1"⟩ :
          RecScenario).exitsInGrace = false →
        ∃ i j k : Nat, i < j ∧ j < k
          ∧ (recordScreenTrace
              ⟨true, true, false, none, some "exit status 1"⟩)[i]?
              = some (Event.graceElapsed graceWindowSeconds)
          ∧ (recordScreenTrace
              ⟨true, true, false, none, some "exit status 1"⟩)[j]?
              = some Event.killForced
          ∧ (recordScreenTrace
              ⟨true, true, false, none, some "exit status 1"⟩)[k]?
              = some Event.exitObserved)
    ∧ (∀ i : Nat, (recordScreenTrace
          ⟨true, true, false, none, some "exit status 1"⟩)[i]?
            = some Event.proceedFinalize →
        ∃ j : Nat, j < i ∧ (recordScreenTrace
          ⟨true, true, false, none, some "exit status 1"⟩)[j]?
            = some Event.exitObserved)
    ∧ Event.proceedFinalize ∈
        recordScreenTrace ⟨true, true, false, none, some "exit status 1"⟩ :=
  recordScreen_graceful_then_forced
    ⟨true, true, false, none, some "exit status 1"⟩ rfl

/-! ## Claim C6: cleanup runs every tenth cycle -/

theorem StartLoop_allOk_length (outs : List IterOutcome) (c : Nat)
    (h : ∀ o ∈ outs, o = IterOutcome.recOk) :
    (StartLoop c outs).length = outs.length := by
  induction outs generalizing c with
  | nil => rfl
  | cons o rest ih =>
    have ho : o = IterOutcome.recOk := h o (by simp)
    subst ho
    simp only [StartLoop, List.length_cons]
    rw [ih (c + 1) (fun o2 ho2 => h o2 (by simp [ho2]))]

theorem StartLoop_allOk_get (outs : List IterOutcome) (c i : Nat)
    (h : ∀ o ∈ outs, o = IterOutcome.recOk) :
    (StartLoop c outs)[i]? =
      if i < outs.length
      then some ⟨c + i + 1, true, (c + i + 1) % 10 == 0⟩
      else none := by
  induction outs generalizing c i with
  | nil => simp [StartLoop]
  | cons o rest ih =>
    have ho : o = IterOutcome.recOk := h o (by simp)
    subst ho
    have hrest : ∀ o ∈ rest, o = IterOutcome.recOk :=
      fun o2 ho2 => h o2 (by simp [ho2])
    cases i with
    | zero => simp [StartLoop]
    | succ k =>
      have harith : c + 1 + k + 1 = c + (k + 1) + 1 := by omega
      simp only [StartLoop, List.getElem?_cons_succ, List.length_cons]
      rw [ih (c + 1) k hrest, harith]
      simp [Nat.succ_lt_succ_iff]

/-- Claim C6: in steady-state operation (every recording succeeds, no
stop signal), the cycle counter of the `Start` loop increments once per
completed pass — the record of the i-th completed cycle carries counter
value i+1 — and retention cleanup runs on exactly those cycles whose
counter is a multiple of 10, and on no others. -/
theorem StartLoop_cleanup_every_tenth (outs : List IterOutcome)
    (h : ∀ o ∈ outs, o = IterOutcome.recOk) :
    (StartLoop 0 outs).length = outs.length
    ∧ ∀ i r, (StartLoop 0 outs)[i]? = some r →
        r.counter = i + 1 ∧ (r.cleanupRan = true ↔ (i + 1) % 10 = 0) := by
  refine ⟨StartLoop_allOk_length outs 0 h, ?_⟩
  intro i r hr
  rw [StartLoop_allOk_get outs 0 i h] at hr
  by_cases hi : i < outs.length
  · rw [if_pos hi] at hr
    have hr2 : r = ⟨0 + i + 1, true, (0 + i + 1) % 10 == 0⟩ :=
      (Option.some.inj hr).symm
    subst hr2
    refine ⟨by simp, ?_⟩
    simp [beq_iff_eq]
  · rw [if_neg hi] at hr
    cases hr

theorem StartLoop_cleanup_every_tenth_witness :
    (StartLoop 0 (List.replicate 12 IterOutcome.recOk)).length
        = (List.replicate 12 IterOutcome.recOk).length
    ∧ ∀ i r, (StartLoop 0 (List.replicate 12 IterOutcome.recOk))[i]?
          = some r →
        r.counter = i + 1 ∧ (r.cleanupRan = true ↔ (i + 1) % 10 = 0) :=
  StartLoop_cleanup_every_tenth (List.replicate 12 IterOutcome.recOk)
    (by decide)

/-! ## Claim C10: a deadline-stopped recording is marked regardless -/

/-- Claim C10: whenever the deadline elapses before subprocess exit,
`recordScreen` returns success — the eventual subprocess exit status
(`lateErr`, free in the scenario) is only logged — so `Start` proceeds
to attach the standard-recording marker to the output file; and the
marker step is skipped exactly when the subprocess exited before the
deadline with an error status. -/
theorem recordScreen_deadline_returns_ok (s : RecScenario) :
    (s.deadlineFirst = true →
      recordScreenResult s = Except.ok () ∧ markerAttachAttempted s = true)
    ∧ (markerAttachAttempted s = false ↔
        s.deadlineFirst = false ∧ ∃ e, s.earlyErr = some e) := by
  rcases s with ⟨df, so, eg, ee, le2⟩
  cases df
  · cases ee with
    | none =>
      refine ⟨fun hc => Bool.noConfusion hc, ?_⟩
      simp [markerAttachAttempted, recordScreenResult]
    | some e =>
      refine ⟨fun hc => Bool.noConfusion hc, ?_⟩
      simp [markerAttachAttempted, recordScreenResult]
  · refine ⟨fun _ => ⟨rfl, rfl⟩, ?_⟩
    simp [markerAttachAttempted, recordScreenResult]

theorem recordScreen_deadline_returns_ok_witness :
    ((⟨true, true, true, none, some "exit status 1"⟩ :
        RecScenario).deadlineFirst = true →
      recordScreenResult ⟨true, true, true, none, some "exit status 1"⟩
          = Except.ok ()
      ∧ markerAttachAttempted ⟨true, true, true, none, some "exit status 1"⟩
          = true)
    ∧ (markerAttachAttempted ⟨true, true, true, none, some "exit status 1"⟩
          = false ↔
        (⟨true, true, true, none, some "exit status 1"⟩ :
            RecScenario).deadlineFirst = false
        ∧ ∃ e, (⟨true, true, true, none, some "exit status 1"⟩ :
            RecScenario).earlyErr = some e) :=
  recordScreen_deadline_returns_ok ⟨true, true, true, none, some "exit status 1"⟩
